import Mathlib

/-!
Verification development for `muda/deformers/ir.py` (impulse-response
convolution deformer).

The embedding follows the source file:

* `median_group_delay` — the group-delay estimator.  Its external numeric
  collaborators (`scipy.signal.freqz` magnitudes, `scipy.signal.group_delay`,
  `np.log10`) are modelled as an abstract `DSPBackend`; the Python builtin
  `max` and `np.median` are modelled exactly (`pyMax`, `npMedian`, with
  `none` for `max`'s ValueError on an empty sequence and for `np.median`'s
  NaN on an empty array).
* `IRConvolution.__init__` / `states` / `audio` / `deform_times` — the
  transformer.  The jams annotation container (an external collaborator) is
  modelled from the spec: `pop_data` drains the observation list, `append`
  adds at the end, `slice(0, duration, strict=False)` returns a NEW
  duration-clipped annotation.  Python's local-variable semantics in
  `deform_times` (the rebinding of the local `annotation` after `slice`, and
  the possibly-unbound `deformed_duration`) are made explicit in
  `DeformState`.

Real numbers (Python floats) are modelled as rationals.
-/

/-- One jams observation: onset time, duration, and two opaque payloads. -/
structure Obs where
  time : ℚ
  duration : ℚ
  value : ℤ
  confidence : ℤ
deriving DecidableEq, Repr

/-- Modelled from the spec: the external annotation container — a fixed total
duration plus an insertion-ordered list of observations. -/
structure Annotation where
  duration : ℚ
  data : List Obs
deriving DecidableEq, Repr

/-- Modelled from the spec: the container's duration-clipping slice operation,
as called in the source: `annotation.slice(0, annotation.duration,
strict=False)`.  It returns a NEW annotation (the caller's object is not
mutated) whose observations are clipped to the window `[0, duration]`:
observations starting past the end are removed, overhanging durations are
truncated; the total duration is unchanged. -/
def Annotation.sliceClip (a : Annotation) : Annotation :=
  { duration := a.duration,
    data := (a.data.filter (fun o => decide (o.time ≤ a.duration))).map
      (fun o => { o with duration := min o.duration (a.duration - o.time) }) }

/-- Modelled from the spec: the container's
`append(time, duration, value, confidence)`, adding one observation at the
end of the data list. -/
def Annotation.appendObs (a : Annotation) (t d : ℚ) (v c : ℤ) : Annotation :=
  { a with data := a.data ++ [⟨t, d, v, c⟩] }

/-- The one Python runtime error `deform_times` can raise: reading the local
`deformed_duration` before any assignment to it. -/
inductive PyError
  | unboundLocal
deriving DecidableEq, Repr

/-- Execution state of the loop in `IRConvolution.deform_times`.
`caller` is the annotation object held by the caller (the one that was
drained by `pop_data`); `localAnn` is the annotation currently denoted by the
local variable `annotation`; `aliased` records whether that local variable
still denotes the caller's object; `lastDur` is the current binding of the
local `deformed_duration` (`none` = not yet assigned). -/
structure DeformState where
  caller : Annotation
  localAnn : Annotation
  aliased : Bool
  lastDur : Option ℚ
deriving DecidableEq, Repr

/-- One iteration of the `for obs in annotation.pop_data()` loop of
`IRConvolution.deform_times`, for group delay `d`.  Mirrors the source:
if `obs.time + ir_groupdelay > annotation.duration` the local `annotation`
is rebound to `annotation.slice(0, annotation.duration, strict=False)` (a
copy) and `deformed_duration` is left untouched; otherwise
`deformed_duration` is assigned (truncated if the shifted offset falls past
the end).  In both cases control then reaches `annotation.append(...)`,
which raises UnboundLocalError when `deformed_duration` was never
assigned.

`keptDur` is the value assigned to `deformed_duration` in the non-drop
branch: `annotation.duration - obs.time - ir_groupdelay` when
`obs.time + obs.duration + ir_groupdelay > annotation.duration`, else
`obs.duration`. -/
def keptDur (D t dur d : ℚ) : ℚ :=
  if D < t + dur + d then D - t - d else dur

/-- One loop iteration of `IRConvolution.deform_times`; see `keptDur`. -/
def deformStep (d : ℚ) (s : DeformState) (o : Obs) : DeformState × Option PyError :=
  if s.localAnn.duration < o.time + d then
    match s.lastDur with
    | none =>
        ({ caller := s.caller, localAnn := s.localAnn.sliceClip,
           aliased := false, lastDur := none }, some PyError.unboundLocal)
    | some dd =>
        ({ caller := s.caller,
           localAnn := (s.localAnn.sliceClip).appendObs (o.time + d) dd o.value o.confidence,
           aliased := false, lastDur := some dd }, none)
  else
    let dd := keptDur s.localAnn.duration o.time o.duration d
    let newLocal := s.localAnn.appendObs (o.time + d) dd o.value o.confidence
    ({ caller := if s.aliased then newLocal else s.caller,
       localAnn := newLocal, aliased := s.aliased, lastDur := some dd }, none)

/-- The whole loop: iterate `deformStep` over the drained observations,
stopping at the first raised error (the state at the raise is kept, since
the caller's annotation object survives the exception). -/
def deformLoop (d : ℚ) : DeformState → List Obs → DeformState × Option PyError
  | s, [] => (s, none)
  | s, o :: rest =>
    match deformStep d s o with
    | (s2, some e) => (s2, some e)
    | (s2, none) => deformLoop d s2 rest

/-- `IRConvolution.deform_times(annotation, state)` for
`state["ir_groupdelay"] = d`: `annotation.pop_data()` first drains the
caller's object (its data becomes `[]`, the local variable still aliases
it), then the loop body runs over the drained observations. -/
def IRConvolution.deform_times (a : Annotation) (d : ℚ) : DeformState × Option PyError :=
  deformLoop d
    { caller := { duration := a.duration, data := [] },
      localAnn := { duration := a.duration, data := [] },
      aliased := true, lastDur := none }
    a.data

/-- Insertion of one element into a sorted list (ascending). -/
def insertSorted (x : ℚ) : List ℚ → List ℚ
  | [] => [x]
  | y :: ys => if x ≤ y then x :: y :: ys else y :: insertSorted x ys

/-- Insertion sort, ascending — the sorted order that `np.median` works on. -/
def sortQ : List ℚ → List ℚ
  | [] => []
  | x :: xs => insertSorted x (sortQ xs)

/-- `np.median`: middle element of the sorted data for odd length, mean of
the two middle elements for even length.  `np.median` of an empty array is
NaN (with only a RuntimeWarning); that outcome is modelled as `none`. -/
def npMedian (l : List ℚ) : Option ℚ :=
  match l with
  | [] => none
  | _ :: _ =>
    let s := sortQ l
    let n := l.length
    if n % 2 = 1 then some (s.getD (n / 2) 0)
    else some ((s.getD (n / 2 - 1) 0 + s.getD (n / 2) 0) / 2)

/-- The Python builtin `max` over a sequence of floats; `none` models the
ValueError it raises on an empty sequence. -/
def pyMax (l : List ℚ) : Option ℚ :=
  match l with
  | [] => none
  | x :: xs => some (xs.foldl (fun a b => if a < b then b else a) x)

/-- External numeric collaborators of `median_group_delay`, modelled
abstractly: `freqzAbs y n` is the per-bin magnitude `|H|` of
`scipy.signal.freqz(y, a=1, worN=n, whole=False)`; `groupDelay y n` is the
per-bin group-delay curve of `scipy.signal.group_delay((y, 1), n)`;
`log10` is `np.log10` on (clipped, hence positive) values. -/
structure DSPBackend where
  freqzAbs : List ℚ → ℤ → List ℚ
  groupDelay : List ℚ → ℤ → List ℚ
  log10 : ℚ → ℚ

/-- `np.clip(|H|, 1e-8, 1e100)` followed by `20 * np.log10`. -/
def dbOfMag (B : DSPBackend) (a : ℚ) : ℚ :=
  20 * B.log10 (min (max a (1 / 10 ^ 8)) (10 ^ 100))

/-- `power_ir = 20 * np.log10(np.clip(np.abs(h_ir), 1e-8, 1e100))`. -/
def power_ir (B : DSPBackend) (y : List ℚ) (n_fft : ℤ) : List ℚ :=
  (B.freqzAbs y n_fft).map (dbOfMag B)

/-- The fancy-indexing selection `gd_ir[power_ir > threshold]`: the
group-delay values at the bins whose dB magnitude strictly exceeds the
threshold. -/
def selectedGd (B : DSPBackend) (y : List ℚ) (n_fft : ℤ) (threshold : ℚ) : List ℚ :=
  ((power_ir B y n_fft).zip (B.groupDelay y n_fft)).filterMap
    (fun p => if threshold < p.1 then some p.2 else none)

/-- Possible outcomes of `median_group_delay`: a Python ValueError from
`max()` on an empty sequence, the NaN that `np.median` returns on an empty
selection (a normal return, not an exception), or a proper numeric value. -/
inductive MGDResult
  | valueError
  | nanResult
  | value (q : ℚ)
deriving DecidableEq, Repr

/-- The sign normalization at the top of `median_group_delay`:
`if rolloff_value > 0: rolloff_value = -rolloff_value`. -/
def normalizeRolloff (rolloff_value : ℚ) : ℚ :=
  if 0 < rolloff_value then -rolloff_value else rolloff_value

/-- `median_group_delay(y, sr, n_fft, rolloff_value)`:
frequency response, dB conversion, `threshold = max(power_ir) +
rolloff_value`, group-delay curve, then
`np.median(gd_ir[power_ir > threshold]) / sr`. -/
def median_group_delay (B : DSPBackend) (y : List ℚ) (sr : ℚ) (n_fft : ℤ)
    (rolloff_value : ℚ) : MGDResult :=
  let rv := normalizeRolloff rolloff_value
  match pyMax (power_ir B y n_fft) with
  | none => MGDResult.valueError
  | some mx =>
    match npMedian (selectedGd B y n_fft (mx + rv)) with
    | none => MGDResult.nanResult
    | some q => MGDResult.value (q / sr)

/-- The `isinstance(ir_files, six.string_types)` coercion in
`IRConvolution.__init__`: a bare string becomes a one-element list. -/
def irFilesAsList : Sum String (List String) → List String
  | Sum.inl s => [s]
  | Sum.inr l => l

/-- The configuration record stored by `IRConvolution.__init__`.  `n_fft`
is a plain Python int, so it is modelled as an integer (no positivity is
enforced anywhere in the source). -/
structure IRConvolution where
  ir_files : List String
  n_fft : ℤ
  rolloff_value : ℚ
deriving DecidableEq, Repr

/-- `IRConvolution.__init__(ir_files, n_fft, rolloff_value)`: wrap a bare
string, store the three fields, register `deform_times` for every
annotation namespace.  The body performs no validation and cannot raise. -/
def IRConvolution.init (ir_files : Sum String (List String)) (n_fft : ℤ)
    (rolloff_value : ℚ) : IRConvolution :=
  { ir_files := irFilesAsList ir_files, n_fft := n_fft, rolloff_value := rolloff_value }

/-- `IRConvolution.states(jam)`: for each configured file, load the IR (the
external `librosa.load`, modelled by `loader`) at the pipeline's sampling
rate and yield `{filename, ir_groupdelay}`.  The generator is modelled as
the list of yielded states. -/
def IRConvolution.states (T : IRConvolution) (B : DSPBackend)
    (loader : String → List ℚ) (sr : ℚ) : List (String × MGDResult) :=
  T.ir_files.map (fun f => (f, median_group_delay B (loader f) sr T.n_fft T.rolloff_value))

/-- `librosa.util.fix_length(data, size)` (external collaborator): pad with
trailing zeros, or truncate, to exactly `size` samples. -/
def fix_length (y : List ℚ) (size : ℕ) : List ℚ :=
  if size ≤ y.length then y.take size else y ++ List.replicate (size - y.length) 0

/-- Full linear convolution: output index `k` is
`sum over i of x[i] * h[k - i]`, for `k` up to `len x + len h - 2`. -/
def fullConv (x h : List ℚ) : List ℚ :=
  (List.range (x.length + h.length - 1)).map (fun k =>
    ((List.range (k + 1)).map (fun i => x.getD i 0 * h.getD (k - i) 0)).sum)

/-- `scipy.signal.fftconvolve(a, v, mode="same")` (external collaborator,
modelled by its documented contract): the centered `len a` portion of the
full linear convolution, starting at offset `(len v - 1) / 2`. -/
def fftconvolve_same (a v : List ℚ) : List ℚ :=
  ((fullConv a v).drop ((v.length - 1) / 2)).take a.length

/-- The body of `IRConvolution.audio(mudabox, state)` after the external
`librosa.load`: `y` is the working buffer `mudabox._audio["y"]`, `y_ir` the
loaded impulse response.  If the buffer is shorter than the IR it is first
zero-extended to the IR length with `fix_length`; the buffer is then
replaced by the same-mode convolution with the IR. -/
def IRConvolution.audio (y y_ir : List ℚ) : List ℚ :=
  let y1 := if y.length < y_ir.length then fix_length y y_ir.length else y
  fftconvolve_same y1 y_ir

/-- Slicing keeps the total duration. -/
theorem sliceClip_duration (a : Annotation) : a.sliceClip.duration = a.duration := rfl

/-- Appending adds exactly one observation at the end. -/
theorem appendObs_data (a : Annotation) (t d : ℚ) (v c : ℤ) :
    (a.appendObs t d v c).data = a.data ++ [⟨t, d, v, c⟩] := rfl

/-- Appending keeps the total duration. -/
theorem appendObs_duration (a : Annotation) (t d : ℚ) (v c : ℤ) :
    (a.appendObs t d v c).duration = a.duration := rfl

/-- `np.median` of a nonempty array is a proper value. -/
theorem npMedian_isSome (l : List ℚ) (h : l ≠ []) : ∃ q, npMedian l = some q := by
  match l with
  | [] => exact absurd rfl h
  | x :: xs =>
    simp only [npMedian]
    split
    · exact ⟨_, rfl⟩
    · exact ⟨_, rfl⟩

/-- The truncation rule equals a minimum with the remaining room. -/
theorem keptDur_eq_min (D t dur d : ℚ) : keptDur D t dur d = min dur (D - (t + d)) := by
  unfold keptDur
  split_ifs with h
  · have hle : D - (t + d) ≤ dur := by linarith
    rw [min_eq_right hle]
    ring
  · have hle : dur ≤ D - (t + d) := by linarith
    rw [min_eq_left hle]

/-- Loop equation: empty drained list. -/
theorem deformLoop_nil (d : ℚ) (s : DeformState) : deformLoop d s [] = (s, none) := rfl

/-- Loop equation: the iteration raised, so the loop stops there. -/
theorem deformLoop_cons_of_err (d : ℚ) (s s2 : DeformState) (o : Obs) (rest : List Obs)
    (e : PyError) (h : deformStep d s o = (s2, some e)) :
    deformLoop d s (o :: rest) = (s2, some e) := by
  simp [deformLoop, h]

/-- Loop equation: the iteration succeeded, so the loop continues. -/
theorem deformLoop_cons_of_ok (d : ℚ) (s s2 : DeformState) (o : Obs) (rest : List Obs)
    (h : deformStep d s o = (s2, none)) :
    deformLoop d s (o :: rest) = deformLoop d s2 rest := by
  simp [deformLoop, h]

/-- Step equation, drop branch with `deformed_duration` unbound: the append
raises UnboundLocalError; the local variable was already rebound to the
sliced copy. -/
theorem deformStep_drop_unbound (d : ℚ) (s : DeformState) (o : Obs)
    (hdrop : s.localAnn.duration < o.time + d) (hdur : s.lastDur = none) :
    deformStep d s o =
      ({ caller := s.caller, localAnn := s.localAnn.sliceClip,
         aliased := false, lastDur := none }, some PyError.unboundLocal) := by
  simp [deformStep, hdrop, hdur]

/-- Step equation, drop branch with `deformed_duration` bound to a stale
value `dd`: the out-of-range observation is appended to the sliced copy
with that stale duration. -/
theorem deformStep_drop_stale (d : ℚ) (s : DeformState) (o : Obs) (dd : ℚ)
    (hdrop : s.localAnn.duration < o.time + d) (hdur : s.lastDur = some dd) :
    deformStep d s o =
      ({ caller := s.caller,
         localAnn := (s.localAnn.sliceClip).appendObs (o.time + d) dd o.value o.confidence,
         aliased := false, lastDur := some dd }, none) := by
  simp [deformStep, hdrop, hdur]

/-- Step equation, non-drop branch: `deformed_duration` is assigned
`keptDur` and the shifted observation is appended through the local
variable (reaching the caller's object exactly when it is still
aliased). -/
theorem deformStep_keep (d : ℚ) (s : DeformState) (o : Obs)
    (hkeep : ¬ s.localAnn.duration < o.time + d) :
    deformStep d s o =
      ({ caller :=
           if s.aliased then
             s.localAnn.appendObs (o.time + d) (keptDur s.localAnn.duration o.time o.duration d)
               o.value o.confidence
           else s.caller,
         localAnn :=
           s.localAnn.appendObs (o.time + d) (keptDur s.localAnn.duration o.time o.duration d)
             o.value o.confidence,
         aliased := s.aliased,
         lastDur := some (keptDur s.localAnn.duration o.time o.duration d) }, none) := by
  simp [deformStep, hkeep]

/-- A step from a state whose local variable no longer aliases the caller's
object leaves the caller's object untouched and never restores the alias. -/
theorem deformStep_unaliased (d : ℚ) (s : DeformState) (o : Obs) (h : s.aliased = false) :
    (deformStep d s o).1.aliased = false ∧ (deformStep d s o).1.caller = s.caller := by
  by_cases hdrop : s.localAnn.duration < o.time + d
  · unfold deformStep
    rw [if_pos hdrop]
    cases hdur : s.lastDur <;> simp
  · unfold deformStep
    rw [if_neg hdrop]
    simp [h]

/-- Once the alias is lost, the rest of the loop leaves the caller's
object untouched. -/
theorem deformLoop_unaliased (d : ℚ) (l : List Obs) (s : DeformState) (h : s.aliased = false) :
    (deformLoop d s l).1.caller = s.caller := by
  induction l generalizing s with
  | nil => rfl
  | cons o rest ih =>
    obtain ⟨ha2, hc2⟩ := deformStep_unaliased d s o h
    rcases hstep : deformStep d s o with ⟨s2, err⟩
    rw [hstep] at ha2 hc2
    cases err with
    | none =>
      rw [deformLoop_cons_of_ok d s s2 o rest hstep]
      rw [ih s2 ha2]
      exact hc2
    | some e =>
      rw [deformLoop_cons_of_err d s s2 o rest e hstep]
      exact hc2

/-- Central invariant of the shifter loop, for a nonnegative group delay:
with the total durations pinned to `D` and the aliasing consistent, every
observation in the caller's annotation object stays within `[0, D]` and
carries the payloads of some drained source observation, shifted by
exactly `d`. -/
theorem deformLoop_caller_invariant (d D : ℚ) (hd : 0 ≤ d) (src : List Obs)
    (l : List Obs) (s : DeformState)
    (hl : ∀ o, o ∈ l → o ∈ src ∧ 0 ≤ o.time ∧ 0 ≤ o.duration)
    (hcd : s.caller.duration = D)
    (hld : s.localAnn.duration = D)
    (hal : s.aliased = true → s.caller = s.localAnn)
    (hc : ∀ o, o ∈ s.caller.data →
      0 ≤ o.time ∧ o.time + o.duration ≤ D ∧
      ∃ s0, s0 ∈ src ∧ o.time = s0.time + d ∧ o.value = s0.value ∧ o.confidence = s0.confidence) :
    (deformLoop d s l).1.caller.duration = D ∧
    ∀ o, o ∈ (deformLoop d s l).1.caller.data →
      0 ≤ o.time ∧ o.time + o.duration ≤ D ∧
      ∃ s0, s0 ∈ src ∧ o.time = s0.time + d ∧ o.value = s0.value ∧ o.confidence = s0.confidence := by
  induction l generalizing s with
  | nil => exact ⟨hcd, hc⟩
  | cons o rest ih =>
    obtain ⟨hosrc, hot, hod⟩ := hl o (List.mem_cons_self o rest)
    have hl2 : ∀ o2, o2 ∈ rest → o2 ∈ src ∧ 0 ≤ o2.time ∧ 0 ≤ o2.duration :=
      fun o2 h2 => hl o2 (List.mem_cons_of_mem o h2)
    by_cases hdrop : s.localAnn.duration < o.time + d
    · cases hdur : s.lastDur with
      | none =>
        rw [deformLoop_cons_of_err d s _ o rest _ (deformStep_drop_unbound d s o hdrop hdur)]
        exact ⟨hcd, hc⟩
      | some dd =>
        rw [deformLoop_cons_of_ok d s _ o rest (deformStep_drop_stale d s o dd hdrop hdur)]
        apply ih _ hl2
        · exact hcd
        · rw [appendObs_duration, sliceClip_duration]
          exact hld
        · intro hfalse
          exact absurd hfalse (by simp)
        · exact hc
    · rw [deformLoop_cons_of_ok d s _ o rest (deformStep_keep d s o hdrop)]
      have hnew : ∀ o2,
          o2 ∈ (s.localAnn.appendObs (o.time + d)
              (keptDur s.localAnn.duration o.time o.duration d) o.value o.confidence).data →
          o2 ∈ s.localAnn.data ∨
          o2 = (⟨o.time + d, keptDur s.localAnn.duration o.time o.duration d,
                  o.value, o.confidence⟩ : Obs) := by
        intro o2 h2
        rw [appendObs_data] at h2
        rcases List.mem_append.mp h2 with h3 | h3
        · exact Or.inl h3
        · exact Or.inr (List.mem_singleton.mp h3)
      have hgood : (0:ℚ) ≤ o.time + d ∧
          (o.time + d) + keptDur s.localAnn.duration o.time o.duration d ≤ D := by
        constructor
        · linarith
        · rw [keptDur_eq_min, hld]
          have hmr := min_le_right o.duration (D - (o.time + d))
          linarith
      by_cases halias : s.aliased = true
      · apply ih _ hl2
        · simp only [halias, if_true]
          rw [appendObs_duration]
          exact hld
        · rw [appendObs_duration]
          exact hld
        · intro _
          simp only [halias, if_true]
        · intro o2 h2
          simp only [halias, if_true] at h2
          rcases hnew o2 h2 with h3 | h3
          · apply hc
            rw [hal halias]
            exact h3
          · subst h3
            exact ⟨hgood.1, hgood.2, o, hosrc, rfl, rfl, rfl⟩
      · have halias2 : s.aliased = false := by
          cases hb : s.aliased
          · rfl
          · exact absurd hb halias
        apply ih _ hl2
        · simp only [halias2, if_false]
          exact hcd
        · rw [appendObs_duration]
          exact hld
        · intro hcontra
          exact absurd hcontra (by simp [halias2])
        · intro o2 h2
          simp only [halias2, if_false] at h2
          exact hc o2 h2

/-- The passband selection as the spec words it: keep exactly the bins whose
dB magnitude strictly exceeds the threshold, and take their group-delay
values. -/
def passbandGd (B : DSPBackend) (y : List ℚ) (n_fft : ℤ) (threshold : ℚ) : List ℚ :=
  (((power_ir B y n_fft).zip (B.groupDelay y n_fft)).filter
    (fun p => decide (threshold < p.1))).map (fun p => p.2)

/-- Selecting through `filterMap` (the fancy-indexing model) agrees with
filtering the bins and projecting their group-delay values. -/
theorem filterMap_if_eq_filter_map (t : ℚ) (l : List (ℚ × ℚ)) :
    l.filterMap (fun p => if t < p.1 then some p.2 else none) =
      (l.filter (fun p => decide (t < p.1))).map (fun p => p.2) := by
  induction l with
  | nil => rfl
  | cons p l2 ih =>
    by_cases h : t < p.1
    · simp [List.filterMap_cons, List.filter_cons, h, ih]
    · simp [List.filterMap_cons, List.filter_cons, h, ih]

/-- The fancy-indexing selection equals the spec-worded passband selection. -/
theorem selectedGd_eq_passbandGd (B : DSPBackend) (y : List ℚ) (n_fft : ℤ) (threshold : ℚ) :
    selectedGd B y n_fft threshold = passbandGd B y n_fft threshold :=
  filterMap_if_eq_filter_map threshold _

/-- Length of the full linear convolution. -/
theorem fullConv_length (x h : List ℚ) :
    (fullConv x h).length = x.length + h.length - 1 := by
  simp [fullConv]

/-- Same-mode convolution output has the length of the first input, for any
nonempty second input. -/
theorem fftconvolve_same_length (a v : List ℚ) (hv : 1 ≤ v.length) :
    (fftconvolve_same a v).length = a.length := by
  simp only [fftconvolve_same, List.length_take, List.length_drop, fullConv_length]
  omega

/-- A concrete abstract backend used to exercise the estimator on explicit
inputs: four frequency bins with magnitudes 1, 2, 3, 4 and group-delay
curve 1, 2, 3, 4; `log10` is modelled by the identity (only its ordering
matters to these inputs). -/
def testBackend : DSPBackend :=
  { freqzAbs := fun _ _ => [1, 2, 3, 4],
    groupDelay := fun _ _ => [1, 2, 3, 4],
    log10 := fun q => q }

/-- C1 (code evaluation at the failing input): annotation of duration 10
holds observations {time 0, duration 2} and {time 9.5, duration 1}; the
group delay is 1.  The second observation's shifted onset 10.5 exceeds the
duration, yet `deform_times` does NOT drop it: control falls through to
`annotation.append`, which appends {time 10.5, duration 2} — the stale
`deformed_duration` of the previous observation — to the sliced local copy.
Only the first observation reaches the caller's annotation object. -/
theorem C1_fallthrough_append :
    (10:ℚ) < 19/2 + 1 ∧
    IRConvolution.deform_times ⟨10, [⟨0, 2, 0, 0⟩, ⟨19/2, 1, 1, 1⟩]⟩ 1 =
      (⟨⟨10, [⟨1, 2, 0, 0⟩]⟩, ⟨10, [⟨1, 2, 0, 0⟩, ⟨21/2, 2, 1, 1⟩]⟩, false, some 2⟩, none) := by
  constructor
  · norm_num
  · norm_num [IRConvolution.deform_times, deformLoop, deformStep, keptDur,
      Annotation.sliceClip, Annotation.appendObs]

/-- C2 (counterexample): with the degenerate negative delay −2 that the
claim explicitly covers, the kept observation {time 1, duration 2} is
re-appended at time −1, violating the claimed invariant `time ≥ 0`. -/
theorem C2_counterexample :
    (IRConvolution.deform_times ⟨10, [⟨1, 2, 5, 7⟩]⟩ (-2)).1.caller.data = [⟨-1, 2, 5, 7⟩] ∧
    ¬ (0:ℚ) ≤ -1 := by
  constructor
  · norm_num [IRConvolution.deform_times, deformLoop, deformStep, keptDur,
      Annotation.appendObs]
  · norm_num

/-- C2 (amended): for a NONNEGATIVE delay and well-formed source
observations (time ≥ 0, duration ≥ 0), every observation present in the
caller's annotation object after `deform_times` runs satisfies `time ≥ 0`
and `time + duration ≤ annotation.duration`, and carries the value and
confidence payloads of a drained source observation unchanged (shifted by
exactly the delay).  With a negative delay the `time ≥ 0` invariant can
fail. -/
theorem C2_shift_invariants (a : Annotation) (d : ℚ) (hd : 0 ≤ d)
    (hsrc : ∀ o, o ∈ a.data → 0 ≤ o.time ∧ 0 ≤ o.duration) :
    ∀ o, o ∈ (IRConvolution.deform_times a d).1.caller.data →
      0 ≤ o.time ∧ o.time + o.duration ≤ a.duration ∧
      ∃ s0, s0 ∈ a.data ∧ o.time = s0.time + d ∧
        o.value = s0.value ∧ o.confidence = s0.confidence :=
  (deformLoop_caller_invariant d a.duration hd a.data a.data
    { caller := { duration := a.duration, data := [] },
      localAnn := { duration := a.duration, data := [] },
      aliased := true, lastDur := none }
    (fun o h => ⟨h, (hsrc o h).1, (hsrc o h).2⟩) rfl rfl (fun _ => rfl)
    (fun o h => absurd h (List.not_mem_nil o))).2

/-- Witness for `C2_shift_invariants`: annotation of duration 10,
observation {time 1, duration 2, value 5, confidence 7}, delay 1/20. -/
theorem C2_witness :
    (0:ℚ) ≤ 1/20 ∧
    (0 ≤ (21/20:ℚ) ∧ (21/20:ℚ) + 2 ≤ 10 ∧
      ∃ s0, s0 ∈ [(⟨1, 2, 5, 7⟩ : Obs)] ∧ (21/20:ℚ) = s0.time + 1/20 ∧
        (5:ℤ) = s0.value ∧ (7:ℤ) = s0.confidence) := by
  constructor
  · norm_num
  · have hdata : (IRConvolution.deform_times ⟨10, [⟨1, 2, 5, 7⟩]⟩ (1/20)).1.caller.data =
        [⟨21/20, 2, 5, 7⟩] := by
      norm_num [IRConvolution.deform_times, deformLoop, deformStep, keptDur,
        Annotation.appendObs]
    have hmem : (⟨21/20, 2, 5, 7⟩ : Obs) ∈
        (IRConvolution.deform_times ⟨10, [⟨1, 2, 5, 7⟩]⟩ (1/20)).1.caller.data := by
      rw [hdata]
      exact List.mem_singleton.mpr rfl
    have hsrc : ∀ o, o ∈ (⟨10, [⟨1, 2, 5, 7⟩]⟩ : Annotation).data →
        0 ≤ o.time ∧ 0 ≤ o.duration := by
      intro o ho
      have ho2 : o ∈ [(⟨1, 2, 5, 7⟩ : Obs)] := ho
      rw [List.mem_singleton] at ho2
      subst ho2
      exact ⟨by norm_num, by norm_num⟩
    exact C2_shift_invariants ⟨10, [⟨1, 2, 5, 7⟩]⟩ (1/20) (by norm_num) hsrc
      ⟨21/20, 2, 5, 7⟩ hmem

/-- C3: if the FIRST drained observation already has shifted onset strictly
beyond the duration, the append reads the never-assigned local
`deformed_duration` and `deform_times` raises UnboundLocalError; and in any
LATER iteration taking the drop branch, the append instead reuses the stale
duration `dd` of an earlier observation. -/
theorem C3_unbound_or_stale :
    (∀ (a : Annotation) (d : ℚ) (o : Obs) (rest : List Obs),
        a.data = o :: rest → a.duration < o.time + d →
        (IRConvolution.deform_times a d).2 = some PyError.unboundLocal) ∧
    (∀ (d : ℚ) (s : DeformState) (o : Obs) (dd : ℚ),
        s.lastDur = some dd → s.localAnn.duration < o.time + d →
        (deformStep d s o).1.localAnn.data =
          (s.localAnn.sliceClip).data ++ [⟨o.time + d, dd, o.value, o.confidence⟩]) := by
  constructor
  · intro a d o rest hdata hdur
    unfold IRConvolution.deform_times
    rw [hdata]
    rw [deformLoop_cons_of_err _ _ _ _ _ _ (deformStep_drop_unbound d _ o hdur rfl)]
  · intro d s o dd hdur hdrop
    rw [deformStep_drop_stale d s o dd hdrop hdur]
    exact appendObs_data _ _ _ _ _

/-- Witness for `C3_unbound_or_stale`: a single observation at time 9.5
with delay 1 (first part), and a drop-branch step whose stale
`deformed_duration` is 2 (second part). -/
theorem C3_witness :
    ((⟨10, [⟨19/2, 1, 1, 1⟩]⟩ : Annotation).data = ⟨19/2, 1, 1, 1⟩ :: []) ∧
    (10:ℚ) < 19/2 + 1 ∧
    (IRConvolution.deform_times ⟨10, [⟨19/2, 1, 1, 1⟩]⟩ 1).2 = some PyError.unboundLocal ∧
    (deformStep 1 ⟨⟨10, []⟩, ⟨10, []⟩, true, some 2⟩ ⟨19/2, 1, 1, 1⟩).1.localAnn.data =
      (⟨10, []⟩ : Annotation).sliceClip.data ++ [⟨19/2 + 1, 2, 1, 1⟩] := by
  refine ⟨rfl, by norm_num, ?_, ?_⟩
  · exact C3_unbound_or_stale.1 ⟨10, [⟨19/2, 1, 1, 1⟩]⟩ 1 ⟨19/2, 1, 1, 1⟩ [] rfl (by norm_num)
  · exact C3_unbound_or_stale.2 1 ⟨⟨10, []⟩, ⟨10, []⟩, true, some 2⟩ ⟨19/2, 1, 1, 1⟩ 2 rfl
      (by norm_num)

/-- C4: as soon as an observation takes the drop branch, the local variable
is rebound to the sliced copy (the alias to the caller's object is lost and
never restored), the caller's object is no longer modified by that step or
by any of the remaining iterations, and — when `deformed_duration` is
bound — the out-of-range observation is appended to the copy. -/
theorem C4_slice_rebinding (d : ℚ) (s : DeformState) (o : Obs) (rest : List Obs)
    (hdrop : s.localAnn.duration < o.time + d) :
    (deformStep d s o).1.aliased = false ∧
    (deformStep d s o).1.caller = s.caller ∧
    (deformLoop d s (o :: rest)).1.caller = s.caller ∧
    ∀ dd, s.lastDur = some dd →
      (deformStep d s o).1.localAnn =
        (s.localAnn.sliceClip).appendObs (o.time + d) dd o.value o.confidence := by
  cases hdur : s.lastDur with
  | none =>
    have hstep := deformStep_drop_unbound d s o hdrop hdur
    refine ⟨by rw [hstep], by rw [hstep], ?_, ?_⟩
    · rw [deformLoop_cons_of_err d s _ o rest _ hstep]
    · intro dd h2
      cases h2
  | some dd0 =>
    have hstep := deformStep_drop_stale d s o dd0 hdrop hdur
    refine ⟨by rw [hstep], by rw [hstep], ?_, ?_⟩
    · rw [deformLoop_cons_of_ok d s _ o rest hstep]
      exact deformLoop_unaliased d rest _ rfl
    · intro dd h2
      injection h2 with h3
      subst h3
      rw [hstep]

/-- Concrete state for the `C4_slice_rebinding` witness: the caller's
object already holds the kept observation {time 1, duration 2} and
`deformed_duration` is bound to 2. -/
def c4state : DeformState :=
  { caller := ⟨10, [⟨1, 2, 0, 0⟩]⟩, localAnn := ⟨10, [⟨1, 2, 0, 0⟩]⟩,
    aliased := true, lastDur := some 2 }

/-- Witness for `C4_slice_rebinding`: observation at time 9.5 with delay 1
(shifted onset 10.5 > 10), followed by one more drained observation. -/
theorem C4_witness :
    (10:ℚ) < 19/2 + 1 ∧
    (deformStep 1 c4state ⟨19/2, 1, 1, 1⟩).1.aliased = false ∧
    (deformStep 1 c4state ⟨19/2, 1, 1, 1⟩).1.caller = c4state.caller ∧
    (deformLoop 1 c4state (⟨19/2, 1, 1, 1⟩ :: [⟨2, 1, 3, 4⟩])).1.caller = c4state.caller ∧
    (deformStep 1 c4state ⟨19/2, 1, 1, 1⟩).1.localAnn =
      (c4state.localAnn.sliceClip).appendObs (19/2 + 1) 2 1 1 := by
  have h := C4_slice_rebinding 1 c4state ⟨19/2, 1, 1, 1⟩ [⟨2, 1, 3, 4⟩]
    (by norm_num [c4state])
  exact ⟨by norm_num, h.1, h.2.1, h.2.2.1, h.2.2.2 2 rfl⟩

/-- C7: a drained observation whose shifted onset is at most the duration
is appended exactly once, through the local variable, with time
`obs.time + d` and duration `min(obs.duration, annotation.duration −
shiftedOnset)`, carrying its payloads unchanged; no error is raised at this
step. -/
theorem C7_keep_shift_truncate (d : ℚ) (s : DeformState) (o : Obs)
    (hkeep : o.time + d ≤ s.localAnn.duration) :
    (deformStep d s o).2 = none ∧
    (deformStep d s o).1.localAnn.data =
      s.localAnn.data ++
        [⟨o.time + d, min o.duration (s.localAnn.duration - (o.time + d)),
          o.value, o.confidence⟩] := by
  have hstep := deformStep_keep d s o (not_lt.mpr hkeep)
  constructor
  · rw [hstep]
  · rw [hstep]
    simp only [appendObs_data, keptDur_eq_min]

/-- Witness for `C7_keep_shift_truncate`: the spec's worked example —
duration 10, observation {time 9.5, duration 1}, delay 0.3: kept as
{time 9.8, duration min(1, 0.2) = 0.2}. -/
theorem C7_witness :
    ((19/2:ℚ) + 3/10 ≤ 10) ∧
    (deformStep (3/10) ⟨⟨10, []⟩, ⟨10, []⟩, true, none⟩ ⟨19/2, 1, 5, 7⟩).2 = none ∧
    (deformStep (3/10) ⟨⟨10, []⟩, ⟨10, []⟩, true, none⟩ ⟨19/2, 1, 5, 7⟩).1.localAnn.data =
      [] ++ [⟨19/2 + 3/10, min 1 (10 - (19/2 + 3/10)), 5, 7⟩] := by
  have h := C7_keep_shift_truncate (3/10) ⟨⟨10, []⟩, ⟨10, []⟩, true, none⟩ ⟨19/2, 1, 5, 7⟩
    (by norm_num)
  exact ⟨by norm_num, h.1, h.2⟩

/-- C5 (counterexample): with `rolloff_value = 0` (sign-normalized values
are `≤ 0`, and 0 is left unchanged) no bin's dB strictly exceeds the
threshold `max(dB) + 0`, yet the estimator does not fail: it returns the
NaN of `np.median` on an empty selection as an ordinary value.  No
`EstimationError` exists anywhere in the source. -/
theorem C5_counterexample :
    selectedGd testBackend [] 4 (80 + normalizeRolloff 0) = [] ∧
    median_group_delay testBackend [] 1 4 0 = MGDResult.nanResult ∧
    MGDResult.nanResult ≠ MGDResult.valueError := by
  refine ⟨?_, ?_, by simp⟩
  · norm_num [selectedGd, power_ir, dbOfMag, testBackend, normalizeRolloff,
      List.filterMap_cons]
  · norm_num [median_group_delay, normalizeRolloff, pyMax, power_ir, dbOfMag,
      selectedGd, npMedian, testBackend, List.filterMap_cons]

/-- C5 (amended): the estimator has no `EstimationError` failure channel.
When no bin's dB strictly exceeds `max(dB) + rolloff`, it RETURNS the NaN
produced by `np.median` of the empty selection (only a RuntimeWarning is
emitted); whenever at least one bin exceeds the threshold it returns a
proper numeric value. -/
theorem C5_no_estimation_error (B : DSPBackend) (y : List ℚ) (sr : ℚ) (n_fft : ℤ)
    (rv mx : ℚ) (hmax : pyMax (power_ir B y n_fft) = some mx) :
    (selectedGd B y n_fft (mx + normalizeRolloff rv) = [] →
      median_group_delay B y sr n_fft rv = MGDResult.nanResult) ∧
    (selectedGd B y n_fft (mx + normalizeRolloff rv) ≠ [] →
      ∃ q, median_group_delay B y sr n_fft rv = MGDResult.value q) := by
  constructor
  · intro hsel
    simp only [median_group_delay, hmax, hsel]
    rfl
  · intro hsel
    obtain ⟨q, hq⟩ := npMedian_isSome _ hsel
    refine ⟨q / sr, ?_⟩
    simp only [median_group_delay, hmax, hq]

/-- Witness for `C5_no_estimation_error` at the concrete backend, with the
default rolloff −24: bins qualify and a numeric value is returned. -/
theorem C5_witness :
    pyMax (power_ir testBackend [] 4) = some 80 ∧
    selectedGd testBackend [] 4 (80 + normalizeRolloff (-24)) ≠ [] ∧
    ∃ q, median_group_delay testBackend [] 1 4 (-24) = MGDResult.value q := by
  have hmax : pyMax (power_ir testBackend [] 4) = some 80 := by
    norm_num [pyMax, power_ir, dbOfMag, testBackend]
  have hsel : selectedGd testBackend [] 4 (80 + normalizeRolloff (-24)) ≠ [] := by
    have hval : selectedGd testBackend [] 4 (80 + normalizeRolloff (-24)) = [3, 4] := by
      norm_num [selectedGd, power_ir, dbOfMag, testBackend, normalizeRolloff,
        List.filterMap_cons]
    rw [hval]
    exact List.cons_ne_nil _ _
  exact ⟨hmax, hsel, (C5_no_estimation_error testBackend [] 1 4 (-24) 80 hmax).2 hsel⟩

/-- C6 (counterexample): constructing the transformer with an empty
`ir_files` list, or with `n_fft = 0`, succeeds — the fields are simply
stored; no `ConfigurationError` is raised (no such exception exists in the
source).  With an empty list, `states` yields nothing. -/
theorem C6_counterexample :
    IRConvolution.init (Sum.inr []) 2048 (-24) =
      { ir_files := [], n_fft := 2048, rolloff_value := -24 } ∧
    IRConvolution.init (Sum.inr ["ir.wav"]) 0 (-24) =
      { ir_files := ["ir.wav"], n_fft := 0, rolloff_value := -24 } ∧
    (IRConvolution.init (Sum.inr []) 2048 (-24)).states testBackend (fun _ => []) 22050 = [] :=
  ⟨rfl, rfl, rfl⟩

/-- C6 (amended): `__init__` performs no validation and cannot raise: any
`ir_files` argument (a bare string is wrapped into a singleton list) and
any `n_fft`, including non-positive ones, are accepted and stored verbatim.
An empty `ir_files` list yields an empty `states` sequence, so no I/O ever
occurs for it. -/
theorem C6_no_validation (files : Sum String (List String)) (n : ℤ) (rv : ℚ)
    (B : DSPBackend) (loader : String → List ℚ) (sr : ℚ) :
    IRConvolution.init files n rv =
      { ir_files := irFilesAsList files, n_fft := n, rolloff_value := rv } ∧
    (IRConvolution.init (Sum.inr []) n rv).states B loader sr = [] :=
  ⟨rfl, rfl⟩

/-- C8: if the working buffer is shorter than the IR it is zero-extended
(with trailing zeros) to exactly the IR's length before the convolution,
and the same-mode convolution result then has the IR's length; a buffer at
least as long as the IR keeps its original length. -/
theorem C8_buffer_extension (y y_ir : List ℚ) (hir : 1 ≤ y_ir.length) :
    (y.length < y_ir.length →
      fix_length y y_ir.length = y ++ List.replicate (y_ir.length - y.length) 0 ∧
      (fix_length y y_ir.length).length = y_ir.length ∧
      (IRConvolution.audio y y_ir).length = y_ir.length) ∧
    (y_ir.length ≤ y.length → (IRConvolution.audio y y_ir).length = y.length) := by
  constructor
  · intro hlt
    have hpad : fix_length y y_ir.length = y ++ List.replicate (y_ir.length - y.length) 0 := by
      unfold fix_length
      rw [if_neg (by omega)]
    have hlen : (fix_length y y_ir.length).length = y_ir.length := by
      rw [hpad]
      simp only [List.length_append, List.length_replicate]
      omega
    refine ⟨hpad, hlen, ?_⟩
    simp only [IRConvolution.audio]
    rw [if_pos hlt, fftconvolve_same_length _ _ hir]
    exact hlen
  · intro hge
    simp only [IRConvolution.audio]
    rw [if_neg (not_lt.mpr hge)]
    exact fftconvolve_same_length _ _ hir

/-- Witness for `C8_buffer_extension`: buffer [1, 2] against a 3-sample
IR. -/
theorem C8_witness :
    1 ≤ ([1, 0, 0] : List ℚ).length ∧
    ([1, 2] : List ℚ).length < ([1, 0, 0] : List ℚ).length ∧
    fix_length [1, 2] 3 = [1, 2] ++ List.replicate 1 0 ∧
    (fix_length ([1, 2] : List ℚ) 3).length = 3 ∧
    (IRConvolution.audio [1, 2] [1, 0, 0]).length = 3 := by
  have h := (C8_buffer_extension [1, 2] [1, 0, 0] (by norm_num)).1 (by norm_num)
  exact ⟨by norm_num, by norm_num, h.1, h.2.1, h.2.2⟩

/-- C9: the sign of `rolloff_value` is normalized before anything else, so
a positive value gives the same estimate as its negation, for every
backend, signal, rate, and transform size. -/
theorem C9_sign_normalization (B : DSPBackend) (y : List ℚ) (sr : ℚ) (n_fft : ℤ)
    (v : ℚ) (hv : 0 < v) :
    median_group_delay B y sr n_fft v = median_group_delay B y sr n_fft (-v) := by
  have h1 : normalizeRolloff v = -v := by
    unfold normalizeRolloff
    rw [if_pos hv]
  have h2 : normalizeRolloff (-v) = -v := by
    unfold normalizeRolloff
    rw [if_neg (by linarith : ¬ (0:ℚ) < -v)]
  simp only [median_group_delay, h1, h2]

/-- Witness for `C9_sign_normalization`: rolloff 24 against −24. -/
theorem C9_witness :
    (0:ℚ) < 24 ∧
    median_group_delay testBackend [] 1 4 24 = median_group_delay testBackend [] 1 4 (-24) :=
  ⟨by norm_num, C9_sign_normalization testBackend [] 1 4 24 (by norm_num)⟩

/-- C10: for a (sign-normalized, hence ≤ 0) rolloff, whenever at least one
bin qualifies, the estimator returns exactly the `np.median` of the
group-delay curve restricted to the bins whose dB magnitude strictly
exceeds `max(dB) + rolloff`, divided by `sr`. -/
theorem C10_median_of_passband (B : DSPBackend) (y : List ℚ) (sr : ℚ) (n_fft : ℤ)
    (rv mx : ℚ) (hrv : rv ≤ 0)
    (hmax : pyMax (power_ir B y n_fft) = some mx)
    (hne : passbandGd B y n_fft (mx + rv) ≠ []) :
    ∃ q, npMedian (passbandGd B y n_fft (mx + rv)) = some q ∧
      median_group_delay B y sr n_fft rv = MGDResult.value (q / sr) := by
  have hnorm : normalizeRolloff rv = rv := by
    unfold normalizeRolloff
    rw [if_neg (by linarith : ¬ (0:ℚ) < rv)]
  obtain ⟨q, hq⟩ := npMedian_isSome _ hne
  refine ⟨q, hq, ?_⟩
  simp only [median_group_delay, hnorm, hmax, selectedGd_eq_passbandGd, hq]

/-- Witness for `C10_median_of_passband`: concrete backend, rolloff −24,
rate 2; the passband is the two loudest bins and the result is their median
group delay divided by the rate. -/
theorem C10_witness :
    ((-24:ℚ) ≤ 0) ∧
    pyMax (power_ir testBackend [] 4) = some 80 ∧
    passbandGd testBackend [] 4 (80 + -24) ≠ [] ∧
    ∃ q, npMedian (passbandGd testBackend [] 4 (80 + -24)) = some q ∧
      median_group_delay testBackend [] 2 4 (-24) = MGDResult.value (q / 2) := by
  have hmax : pyMax (power_ir testBackend [] 4) = some 80 := by
    norm_num [pyMax, power_ir, dbOfMag, testBackend]
  have hne : passbandGd testBackend [] 4 (80 + -24) ≠ [] := by
    have hval : passbandGd testBackend [] 4 (80 + -24) = [3, 4] := by
      norm_num [passbandGd, power_ir, dbOfMag, testBackend, List.filter_cons]
    rw [hval]
    exact List.cons_ne_nil _ _
  exact ⟨by norm_num, hmax, hne,
    C10_median_of_passband testBackend [] 2 4 (-24) 80 (by norm_num) hmax hne⟩
